import Mathlib

/-!
# yamlcfg: assertion primitives and typed getters

A shallow embedding of the error representation and the assertion primitives
of `config/errors.go`, and of the typed getters and the signal lookup that
`parse_test.go` exercises, followed by the properties established about them.

Go's `interface{}` values are embedded as the sum type `Node`; a `panic` is
embedded as the `error` branch of `Except`, carrying the value the panic was
raised with.
-/

namespace Yamlcfg

/-! ## Data model -/

/-- Generic node: the dynamic value held by a Go `interface{}` handed over by
the YAML decoder. `int` is Go's `int`, `seq` is `[]interface{}`, `map` is
`map[interface{}]interface{}` given by the list of its entries (a Go map has
no two entries with the same key; nothing below relies on it), `other` is a
value of any further dynamic type (the nil interface, a float, ...) identified
by the text `fmt` prints for it. -/
inductive Node where
  | bool (b : Bool)
  | str (s : String)
  | int (n : Int)
  | seq (items : List Node)
  | map (entries : List (Node × Node))
  | other (text : String)

namespace Node

/-- Type assertion `value.(bool)` succeeds. -/
def isBool : Node → Bool
  | .bool _ => true
  | _ => false

/-- Type assertion `value.(string)` succeeds. -/
def isString : Node → Bool
  | .str _ => true
  | _ => false

/-- Type switch `case int` is taken. -/
def isInt : Node → Bool
  | .int _ => true
  | _ => false

/-- Type assertion `value.([]interface{})` succeeds. -/
def isArray : Node → Bool
  | .seq _ => true
  | _ => false

/-- Type assertion `value.(map[interface{}]interface{})` succeeds. -/
def isMap : Node → Bool
  | .map _ => true
  | _ => false

/-- The node is the interface value a Go string `key` converts to. -/
def isStr (key : String) : Node → Bool
  | .str s => s == key
  | _ => false

end Node

/-! ## Text produced by `fmt` -/

/-- Place of a key's dynamic type when `fmt` prints a map. `fmt` puts the nil
key first and keeps the keys of one dynamic type together; the order between
dynamic types is the order of their type descriptors in the binary, which Go
leaves to the implementation: strings, then bools, then ints, then the rest is
the one taken here. Sequences and mappings cannot be keys of a Go map. -/
def keyClass : Node → Nat
  | .other text => if text == "<nil>" then 0 else 4
  | .str _ => 1
  | .bool _ => 2
  | .int _ => 3
  | .seq _ => 5
  | .map _ => 6

/-- Go's `<` on strings, on their characters: the first character that differs
decides, and a proper beginning of a string comes before it. -/
def charsBefore : List Char → List Char → Bool
  | [], [] => false
  | [], _ :: _ => true
  | _ :: _, [] => false
  | a :: as, b :: bs => a.toNat < b.toNat || (a.toNat == b.toNat && charsBefore as bs)

/-- Order of two keys of one dynamic type when `fmt` prints a map: strings by
`<`, `false` before `true`, ints by `<`. -/
def valueBefore : Node → Node → Bool
  | .str s, .str t => charsBefore s.data t.data
  | .bool x, .bool y => !x && y
  | .int m, .int n => decide (m < n)
  | _, _ => false

/-- Key `a` is printed before key `b`. -/
def keyBefore (a b : Node) : Bool :=
  keyClass a < keyClass b || (keyClass a == keyClass b && valueBefore a b)

/-- One entry put at its place among entries already in key order. -/
def insertByKey {α : Type} (e : Node × α) : List (Node × α) → List (Node × α)
  | [] => [e]
  | x :: rest => if keyBefore x.1 e.1 then x :: insertByKey e rest else e :: x :: rest

/-- Entries in key order, as `fmt` sorts a map before printing it. -/
def sortByKey {α : Type} : List (Node × α) → List (Node × α)
  | [] => []
  | e :: rest => insertByKey e (sortByKey rest)

/-- Texts separated by single spaces. -/
def joinSpace : List String → String
  | [] => ""
  | [x] => x
  | x :: y :: rest => x ++ " " ++ joinSpace (y :: rest)

mutual
/-- Text `fmt` produces for a node under the verb `%+v`. A map is printed with
its entries sorted by key, whatever the order they are listed in. -/
def fmtV : Node → String
  | .bool b => if b then "true" else "false"
  | .str s => s
  | .int n => toString n
  | .seq items => "[" ++ fmtItems items ++ "]"
  | .map entries => "map[" ++ joinSpace ((sortByKey (fmtEntries entries)).map Prod.snd) ++ "]"
  | .other text => text
/-- Elements of a slice, separated by single spaces. -/
def fmtItems : List Node → String
  | [] => ""
  | [x] => fmtV x
  | x :: y :: rest => fmtV x ++ " " ++ fmtItems (y :: rest)
/-- Entries of a map, each key with the text `key:value` of its entry. -/
def fmtEntries : List (Node × Node) → List (Node × String)
  | [] => []
  | (k, v) :: rest => (k, fmtV k ++ ":" ++ fmtV v) :: fmtEntries rest
end

/-! ## Error representation -/

/-- ParseError: `type ParseError string`, the message it was built with. -/
structure ParseError where
  msg : String
deriving DecidableEq, Repr

/-- Method `Error` of ParseError: `string(err)`. -/
def ParseError.Error (err : ParseError) : String :=
  err.msg

/-- NewParseError creates a new parse error with the default format. -/
def NewParseError (key : String) (value : Node) (what : String) : ParseError :=
  if key == "" then
    ⟨"config failed to parse " ++ fmtV value ++ " as " ++ what⟩
  else
    ⟨"config failed to parse \x7b" ++ key ++ ": " ++ fmtV value ++ "\x7d as " ++ what⟩

/-- Value a panic is raised with: a ParseError passed to `panic`, or the
error the Go runtime raises when a single-result type assertion `x.(T)`
fails, with the name of `T`. -/
inductive Panic where
  | parseError (err : ParseError)
  | typeAssertion (want : String)
deriving DecidableEq, Repr

/-- Whether a call returned, or unwound with a panic value. -/
abbrev Outcome := Except Panic Unit

instance : DecidableEq Outcome
  | .ok (), .ok () => isTrue rfl
  | .ok (), .error _ => isFalse (fun h => by cases h)
  | .error _, .ok () => isFalse (fun h => by cases h)
  | .error p, .error q =>
    if h : p = q then isTrue (by rw [h]) else isFalse (fun e => by cases e; exact h rfl)

/-- The call returned normally. -/
def Outcome.returns : Outcome → Bool
  | .ok _ => true
  | .error _ => false

/-- The call returned, or the value it panicked with is a ParseError. -/
def Outcome.onlyParseError : Outcome → Bool
  | .ok _ => true
  | .error (.parseError _) => true
  | .error (.typeAssertion _) => false

/-! ## Assertion primitives -/

/-- Map index `mapping[key]` with a string key: its second result. -/
def hasKey (mapping : List (Node × Node)) (key : String) : Bool :=
  mapping.any (fun e => e.1.isStr key)

/-- Loop `for _, key := range keys` of AssertHasKeys. -/
def rangeKeys (mapping : List (Node × Node)) (where_ : String) : List String → Outcome
  | [] => .ok ()
  | key :: rest =>
    if !hasKey mapping key then
      .error (.parseError ⟨"config key \x7b" ++ key ++ ": ?\x7d not found in " ++ where_⟩)
    else
      rangeKeys mapping where_ rest

/-- AssertHasKeys panics with a ParseError if a key is missing from the
provided YAML map. -/
def AssertHasKeys (data : Node) (keys : List String) (where_ : String) : Outcome :=
  match data with
  | .map mapping => rangeKeys mapping where_ keys
  | _ => .error (.typeAssertion "map[interface {}]interface {}")

/-- AssertIsBool panics with a ParseError if value is not a boolean. -/
def AssertIsBool (key : String) (value : Node) : Outcome :=
  if !value.isBool then .error (.parseError (NewParseError key value "bool")) else .ok ()

/-- AssertIsString panics with a ParseError if value is not a string. -/
def AssertIsString (key : String) (value : Node) : Outcome :=
  if !value.isString then .error (.parseError (NewParseError key value "string")) else .ok ()

/-- AssertIsInt panics with a ParseError if value is not an int. -/
def AssertIsInt (key : String) (value : Node) : Outcome :=
  match value with
  | .int _ => .ok ()
  | _ => .error (.parseError (NewParseError key value "int"))

/-- AssertIsArray panics with a ParseError if value is not an array. -/
def AssertIsArray (key : String) (value : Node) : Outcome :=
  if !value.isArray then .error (.parseError (NewParseError key value "array")) else .ok ()

/-- Loop `for _, item := range value.([]interface{})` of AssertIsStringArray. -/
def rangeItems (key : String) (value : Node) : List Node → Outcome
  | [] => .ok ()
  | item :: rest =>
    if !item.isString then
      .error (.parseError (NewParseError key value "string array"))
    else
      rangeItems key value rest

/-- AssertIsStringArray panics with a ParseError if value is not a string
array. -/
def AssertIsStringArray (key : String) (value : Node) : Outcome := do
  AssertIsArray key value
  match value with
  | .seq items => rangeItems key value items
  | _ => .error (.typeAssertion "[]interface {}")

/-- AssertIsMap panics with a ParseError if value is not a map. -/
def AssertIsMap (key : String) (value : Node) : Outcome :=
  if !value.isMap then .error (.parseError (NewParseError key value "map")) else .ok ()

/-- Order in which a `range` loop visits the entries of a map. Go leaves it
unspecified: each entry is visited once, in any order. -/
structure RangeOrder where
  visit : List (Node × Node) → List (Node × Node)
  perm : ∀ entries, (visit entries).Perm entries

/-- Entries visited as they are listed. -/
def RangeOrder.listed : RangeOrder :=
  ⟨fun entries => entries, fun _ => List.Perm.refl _⟩

/-- Entries visited from the last listed to the first. -/
def RangeOrder.backwards : RangeOrder :=
  ⟨fun entries => entries.reverse, fun entries => List.reverse_perm entries⟩

/-- Body of the loop `for name, item := range value.(map[interface{}]interface{})`
of AssertIsStringMap, over the entries in the order visited. -/
def rangeEntries (key : String) (value : Node) : List (Node × Node) → Outcome
  | [] => .ok ()
  | (name, item) :: rest =>
    if !name.isString then
      .error (.parseError (NewParseError key value "map key"))
    else if !item.isString then
      .error (.parseError (NewParseError key value "map value"))
    else
      rangeEntries key value rest

/-- AssertIsStringMap panics with a ParseError if value is not a string/string
map. The order `ord` is the one the `range` loop happens to take. -/
def AssertIsStringMap (ord : RangeOrder) (key : String) (value : Node) : Outcome := do
  AssertIsMap key value
  match value with
  | .map entries => rangeEntries key value (ord.visit entries)
  | _ => .error (.typeAssertion "map[interface {}]interface {}")

/-! ## Typed getters

The getters and the signal lookup live in `parse.go`, which is not among the
sources at hand; only their tests (`parse_test.go`) are. They are modelled on
the specification's description of them, on top of the assertion primitives
above. -/

instance {α : Type} [DecidableEq α] : DecidableEq (Except Panic α)
  | .ok a, .ok b => if h : a = b then isTrue (by rw [h]) else isFalse (fun e => by cases e; exact h rfl)
  | .ok _, .error _ => isFalse (fun h => by cases h)
  | .error _, .ok _ => isFalse (fun h => by cases h)
  | .error p, .error q =>
    if h : p = q then isTrue (by rw [h]) else isFalse (fun e => by cases e; exact h rfl)

/-- Modelled from the spec: GetMapItem of `parse.go`, which is not among the
sources. The two-value lookup `(value, found)` of a key in a mapping: `none`
is `found = false`. -/
def GetMapItem : List (Node × Node) → String → Option Node
  | [], _ => none
  | (name, item) :: rest, key => if name.isStr key then some item else GetMapItem rest key

/-- Modelled from the spec: GetBool of `parse.go`, which is not among the
sources. The default when the key is absent; otherwise AssertIsBool on the
value found, which is then passed through. -/
def GetBool (mapping : List (Node × Node)) (key : String) (dflt : Bool) : Except Panic Bool :=
  match GetMapItem mapping key with
  | none => .ok dflt
  | some value => do
    AssertIsBool key value
    match value with
    | .bool b => .ok b
    | _ => .error (.typeAssertion "bool")

/-- Modelled from the spec: GetString of `parse.go`, which is not among the
sources. The default when the key is absent; otherwise AssertIsString on the
value found, which is then passed through. -/
def GetString (mapping : List (Node × Node)) (key : String) (dflt : String) :
    Except Panic String :=
  match GetMapItem mapping key with
  | none => .ok dflt
  | some value => do
    AssertIsString key value
    match value with
    | .str s => .ok s
    | _ => .error (.typeAssertion "string")

/-- Modelled from the spec: GetInt of `parse.go`, which is not among the
sources. The default when the key is absent; otherwise AssertIsInt on the
value found, which is then passed through. -/
def GetInt (mapping : List (Node × Node)) (key : String) (dflt : Int) : Except Panic Int :=
  match GetMapItem mapping key with
  | none => .ok dflt
  | some value => do
    AssertIsInt key value
    match value with
    | .int n => .ok n
    | _ => .error (.typeAssertion "int")

/-- Modelled from the spec: the conversion step of GetStringArray, each
element of the sequence taken as a string, in the order of the sequence. -/
def itemStrings : List Node → Except Panic (List String)
  | [] => .ok []
  | item :: rest =>
    match item with
    | .str s => do
      let tail ← itemStrings rest
      .ok (s :: tail)
    | _ => .error (.typeAssertion "string")

/-- Modelled from the spec: GetStringArray of `parse.go`, which is not among
the sources. The default when the key is absent; otherwise AssertIsStringArray
on the value found, then the ordered sequence of its strings. -/
def GetStringArray (mapping : List (Node × Node)) (key : String) (dflt : List String) :
    Except Panic (List String) :=
  match GetMapItem mapping key with
  | none => .ok dflt
  | some value => do
    AssertIsStringArray key value
    match value with
    | .seq items => itemStrings items
    | _ => .error (.typeAssertion "[]interface {}")

/-- Go's `time.Duration`: a count of nanoseconds held in a signed 64-bit
integer. -/
structure Duration where
  ns : Int
deriving DecidableEq, Repr

/-- Value held by a signed 64-bit integer after the exact result `x` of an
operation wraps around. -/
def wrapInt64 (x : Int) : Int :=
  (x + 2 ^ 63) % 2 ^ 64 - 2 ^ 63

/-- Conversion `time.Duration(n)` of an integer. -/
def Duration.ofInt (n : Int) : Duration :=
  ⟨wrapInt64 n⟩

/-- Product of two durations, as Go computes it in 64 bits. -/
def Duration.mul (a b : Duration) : Duration :=
  ⟨wrapInt64 (a.ns * b.ns)⟩

/-- Go's `time.Second`. -/
def Second : Duration :=
  ⟨1000000000⟩

/-- Modelled from the spec: GetDuration of `parse.go`, which is not among the
sources. The default, already a duration, when the key is absent; otherwise
AssertIsInt on the value found, which is then taken as a count of seconds:
`time.Duration(n) * time.Second`, the expression of TestGetDuration. -/
def GetDuration (mapping : List (Node × Node)) (key : String) (dflt : Duration) :
    Except Panic Duration :=
  match GetMapItem mapping key with
  | none => .ok dflt
  | some value => do
    AssertIsInt key value
    match value with
    | .int n => .ok (Duration.mul (Duration.ofInt n) Second)
    | _ => .error (.typeAssertion "int")

/-! ## Signal registry -/

/-- White space as Go's `unicode.IsSpace` decides it, by code point. -/
def isSpace (c : Char) : Bool :=
  [9, 10, 11, 12, 13, 32, 0x85, 0xA0, 0x1680, 0x2000, 0x2001, 0x2002, 0x2003, 0x2004, 0x2005,
    0x2006, 0x2007, 0x2008, 0x2009, 0x200A, 0x2028, 0x2029, 0x202F, 0x205F, 0x3000].contains c.toNat

/-- Leading white space removed. -/
def trimLeft : List Char → List Char
  | [] => []
  | c :: cs => if isSpace c then trimLeft cs else c :: cs

/-- Trailing white space removed. -/
def trimRight : List Char → List Char
  | [] => []
  | c :: cs => if (trimRight cs).isEmpty && isSpace c then [] else c :: trimRight cs

/-- Modelled from the spec: the trimming step of LookupSignal, leading and
trailing white space removed as Go's `strings.TrimSpace` does. -/
def TrimSpace (s : String) : String :=
  ⟨trimRight (trimLeft s.data)⟩

/-- Upper case of an ASCII character: the letters `a` to `z` go to `A` to
`Z`, every other character is left as it is. -/
def upperASCII (c : Char) : Char :=
  if 97 ≤ c.toNat ∧ c.toNat ≤ 122 then Char.ofNat (c.toNat - 32) else c

/-- Modelled from the spec: the upper-casing of one character that LookupSignal
applies to a name, Go's `unicode.ToUpper`. Unicode's table belongs to the Go
library and is not reproduced here; what is taken of it is that it acts on the
ASCII characters as `upperASCII` does, that an upper case is its own upper
case, and that it sends white space to white space and nothing else to white
space. -/
structure CaseTable where
  upper : Char → Char
  ascii : ∀ c : Char, c.toNat < 128 → upper c = upperASCII c
  upper_upper : ∀ c : Char, upper (upper c) = upper c
  space : ∀ c : Char, isSpace (upper c) = isSpace c

/-- The characters whose upper case in Unicode is an ASCII character: the
letters `a` to `z`, the long s (U+017F) with upper case `S` and the dotless i
(U+0131) with upper case `I`; every other character is left as it is. -/
def upperBasic (c : Char) : Char :=
  if c.toNat = 383 then Char.ofNat 83 else if c.toNat = 305 then Char.ofNat 73 else upperASCII c

/-- The case table `upperBasic`: it gives a name the upper case Unicode gives
it whenever that upper case is made of ASCII characters, as the names of
signals are. -/
def CaseTable.basic : CaseTable where
  upper := upperBasic
  ascii := by
    intro c hc
    have h1 : c.toNat ≠ 383 := by omega
    have h2 : c.toNat ≠ 305 := by omega
    simp [upperBasic, h1, h2]
  upper_upper := by
    intro c
    have hc : c = Char.ofNat c.toNat := (Char.ofNat_toNat c).symm
    by_cases h1 : c.toNat = 383
    · rw [h1] at hc; subst hc; decide
    by_cases h2 : c.toNat = 305
    · rw [h2] at hc; subst hc; decide
    by_cases h3 : 97 ≤ c.toNat ∧ c.toNat ≤ 122
    · obtain ⟨h4, h5⟩ := h3
      generalize c.toNat = n at hc h1 h2 h4 h5
      subst hc
      interval_cases n <;> decide
    · simp [upperBasic, upperASCII, h1, h2, h3]
  space := by
    intro c
    have hc : c = Char.ofNat c.toNat := (Char.ofNat_toNat c).symm
    by_cases h1 : c.toNat = 383
    · rw [h1] at hc; subst hc; decide
    by_cases h2 : c.toNat = 305
    · rw [h2] at hc; subst hc; decide
    by_cases h3 : 97 ≤ c.toNat ∧ c.toNat ≤ 122
    · obtain ⟨h4, h5⟩ := h3
      generalize c.toNat = n at hc h1 h2 h4 h5
      subst hc
      interval_cases n <;> decide
    · simp [upperBasic, upperASCII, h1, h2, h3]

/-- Modelled from the spec: the upper-casing step of LookupSignal, Go's
`strings.ToUpper`: every character of the string replaced by its upper case
in the table. -/
def ToUpper (tbl : CaseTable) (s : String) : String :=
  ⟨s.data.map tbl.upper⟩

/-- Go's `syscall.Signal`, a signal number. -/
abbrev Signal := Int

/-- Modelled from the spec: the signal registry of `parse.go`, which is not
among the sources: canonical upper-case name to the platform's number. The
platform supplies the set; this is the one of Linux on x86. -/
def linuxSignals : List (String × Signal) :=
  [("SIGABRT", 6), ("SIGALRM", 14), ("SIGBUS", 7), ("SIGCHLD", 17), ("SIGCLD", 17),
    ("SIGCONT", 18), ("SIGFPE", 8), ("SIGHUP", 1), ("SIGILL", 4), ("SIGINT", 2),
    ("SIGIO", 29), ("SIGIOT", 6), ("SIGKILL", 9), ("SIGPIPE", 13), ("SIGPOLL", 29),
    ("SIGPROF", 27), ("SIGPWR", 30), ("SIGQUIT", 3), ("SIGSEGV", 11), ("SIGSTKFLT", 16),
    ("SIGSTOP", 19), ("SIGSYS", 31), ("SIGTERM", 15), ("SIGTRAP", 5), ("SIGTSTP", 20),
    ("SIGTTIN", 21), ("SIGTTOU", 22), ("SIGUNUSED", 31), ("SIGURG", 23), ("SIGUSR1", 10),
    ("SIGUSR2", 12), ("SIGVTALRM", 26), ("SIGWINCH", 28), ("SIGXCPU", 24), ("SIGXFSZ", 25)]

/-- Exact-match lookup of a name in a registry: the number and `true`, or the
zero signal and `false`. -/
def registryLookup : List (String × Signal) → String → Signal × Bool
  | [], _ => (0, false)
  | (name, sig) :: rest, wanted =>
    if name == wanted then (sig, true) else registryLookup rest wanted

/-- Modelled from the spec: LookupSignal of `parse.go`, which is not among the
sources. The name is trimmed of leading and trailing white space, upper-cased,
and matched exactly against the registry, given here as `registry`; `tbl` is
the table of upper cases. -/
def LookupSignal (tbl : CaseTable) (registry : List (String × Signal)) (name : String) :
    Signal × Bool :=
  registryLookup registry (ToUpper tbl (TrimSpace name))

/-- Modelled from the spec: GetSignal of `parse.go`, which is not among the
sources. The default when the key is absent; otherwise AssertIsString on the
value found, then the lookup of that string, and a ParseError with the label
"signal", the key and the raw value when the lookup finds nothing. -/
def GetSignal (tbl : CaseTable) (registry : List (String × Signal))
    (mapping : List (Node × Node)) (key : String) (dflt : Signal) : Except Panic Signal :=
  match GetMapItem mapping key with
  | none => .ok dflt
  | some value => do
    AssertIsString key value
    match value with
    | .str name =>
      match LookupSignal tbl registry name with
      | (sig, true) => .ok sig
      | (_, false) => .error (.parseError (NewParseError key value "signal"))
    | _ => .error (.typeAssertion "string")

/-- The message of a ParseError contains the key, the text of the value and
the type label. -/
def ParseError.names (err : ParseError) (key : String) (value : Node) (what : String) : Prop :=
  key.data <:+: err.Error.data ∧ (fmtV value).data <:+: err.Error.data ∧
    what.data <:+: err.Error.data

/-- The call did not return: it raised NewParseError(key, value, what), and the
message of that error contains the key, the text of the value and the
label. -/
def raisesParseError {α : Type} (r : Except Panic α) (key : String) (value : Node)
    (what : String) : Prop :=
  r = .error (.parseError (NewParseError key value what)) ∧
    (NewParseError key value what).names key value what

/-! ## Auxiliary facts -/

theorem Node.isString_iff (v : Node) : v.isString = true ↔ ∃ s, v = .str s := by
  cases v <;> simp [Node.isString]

theorem Node.isArray_iff (v : Node) : v.isArray = true ↔ ∃ items, v = .seq items := by
  cases v <;> simp [Node.isArray]

theorem Node.isMap_iff (v : Node) : v.isMap = true ↔ ∃ entries, v = .map entries := by
  cases v <;> simp [Node.isMap]

theorem Node.isStr_iff (key : String) (v : Node) : v.isStr key = true ↔ v = .str key := by
  cases v <;> simp [Node.isStr]

theorem hasKey_iff (mapping : List (Node × Node)) (key : String) :
    hasKey mapping key = true ↔ ∃ e ∈ mapping, e.1 = .str key := by
  simp [hasKey, List.any_eq_true, Node.isStr_iff]

theorem hasKey_eq_false_iff (mapping : List (Node × Node)) (key : String) :
    hasKey mapping key = false ↔ ∀ e ∈ mapping, e.1 ≠ .str key := by
  rw [← Bool.not_eq_true, hasKey_iff]
  constructor
  · intro h e he heq
    exact h ⟨e, he, heq⟩
  · rintro h ⟨e, he, heq⟩
    exact h e he heq

theorem rangeKeys_ok_iff (mapping : List (Node × Node)) (where_ : String) (keys : List String) :
    rangeKeys mapping where_ keys = .ok () ↔ ∀ k ∈ keys, hasKey mapping k = true := by
  induction keys with
  | nil => simp [rangeKeys]
  | cons k rest ih =>
    cases hk : hasKey mapping k
    · simp [rangeKeys, hk]
    · simp [rangeKeys, hk, ih]

theorem rangeKeys_append_missing (mapping : List (Node × Node)) (where_ : String)
    (pre : List String) (k : String) (post : List String)
    (hpre : ∀ x ∈ pre, hasKey mapping x = true) (hk : hasKey mapping k = false) :
    rangeKeys mapping where_ (pre ++ k :: post) =
      .error (.parseError ⟨"config key \x7b" ++ k ++ ": ?\x7d not found in " ++ where_⟩) := by
  induction pre with
  | nil => simp [rangeKeys, hk]
  | cons x rest ih =>
    have hx : hasKey mapping x = true := hpre x (List.mem_cons_self _ _)
    have hrest : ∀ y ∈ rest, hasKey mapping y = true :=
      fun y hy => hpre y (List.mem_cons_of_mem _ hy)
    simp [rangeKeys, hx, ih hrest]

theorem exists_first_missing (mapping : List (Node × Node)) (keys : List String)
    (h : ∃ k ∈ keys, hasKey mapping k = false) :
    ∃ pre k post, keys = pre ++ k :: post ∧ (∀ x ∈ pre, hasKey mapping x = true) ∧
      hasKey mapping k = false := by
  induction keys with
  | nil => simp at h
  | cons x rest ih =>
    cases hx : hasKey mapping x
    · exact ⟨[], x, rest, rfl, by simp, hx⟩
    · have h2 : ∃ k ∈ rest, hasKey mapping k = false := by
        obtain ⟨k, hk, hkm⟩ := h
        rcases List.mem_cons.mp hk with rfl | hk2
        · rw [hx] at hkm; cases hkm
        · exact ⟨k, hk2, hkm⟩
      obtain ⟨pre, k, post, he, hp, hk⟩ := ih h2
      refine ⟨x :: pre, k, post, by simp [he], ?_, hk⟩
      intro y hy
      rcases List.mem_cons.mp hy with rfl | hy2
      · exact hx
      · exact hp y hy2

theorem hasKey_perm (m1 m2 : List (Node × Node)) (h : m1.Perm m2) (key : String) :
    hasKey m1 key = hasKey m2 key := by
  rw [Bool.eq_iff_iff, hasKey_iff, hasKey_iff]
  constructor
  · rintro ⟨e, he, hk⟩
    exact ⟨e, h.mem_iff.mp he, hk⟩
  · rintro ⟨e, he, hk⟩
    exact ⟨e, h.mem_iff.mpr he, hk⟩

theorem rangeKeys_perm (m1 m2 : List (Node × Node)) (h : m1.Perm m2) (where_ : String)
    (keys : List String) : rangeKeys m1 where_ keys = rangeKeys m2 where_ keys := by
  induction keys with
  | nil => simp [rangeKeys]
  | cons k rest ih => simp [rangeKeys, hasKey_perm m1 m2 h k, ih]

theorem rangeItems_ok_iff (key : String) (value : Node) (items : List Node) :
    rangeItems key value items = .ok () ↔ ∀ x ∈ items, x.isString = true := by
  induction items with
  | nil => simp [rangeItems]
  | cons x rest ih =>
    cases hx : x.isString
    · simp [rangeItems, hx]
    · simp [rangeItems, hx, ih]

theorem rangeItems_cases (key : String) (value : Node) (items : List Node) :
    rangeItems key value items = .ok () ∨
      rangeItems key value items = .error (.parseError (NewParseError key value "string array")) := by
  induction items with
  | nil => simp [rangeItems]
  | cons x rest ih =>
    cases hx : x.isString
    · simp [rangeItems, hx]
    · simpa [rangeItems, hx] using ih

theorem rangeEntries_ok_iff (key : String) (value : Node) (entries : List (Node × Node)) :
    rangeEntries key value entries = .ok () ↔
      ∀ e ∈ entries, e.1.isString = true ∧ e.2.isString = true := by
  induction entries with
  | nil => simp [rangeEntries]
  | cons e rest ih =>
    obtain ⟨name, item⟩ := e
    cases hn : name.isString <;> cases hi : item.isString <;> simp [rangeEntries, hn, hi, ih]

theorem rangeEntries_cases (key : String) (value : Node) (entries : List (Node × Node)) :
    rangeEntries key value entries = .ok () ∨
      rangeEntries key value entries = .error (.parseError (NewParseError key value "map key")) ∨
      rangeEntries key value entries = .error (.parseError (NewParseError key value "map value")) := by
  induction entries with
  | nil => simp [rangeEntries]
  | cons e rest ih =>
    obtain ⟨name, item⟩ := e
    cases hn : name.isString
    · simp [rangeEntries, hn]
    · cases hi : item.isString
      · simp [rangeEntries, hn, hi]
      · simpa [rangeEntries, hn, hi] using ih

theorem rangeEntries_string_keys (key : String) (value : Node) (entries : List (Node × Node))
    (hkeys : ∀ e ∈ entries, e.1.isString = true) :
    rangeEntries key value entries = .ok () ∨
      rangeEntries key value entries = .error (.parseError (NewParseError key value "map value")) := by
  induction entries with
  | nil => simp [rangeEntries]
  | cons e rest ih =>
    obtain ⟨name, item⟩ := e
    have hn : name.isString = true := hkeys (name, item) (List.mem_cons_self _ _)
    have hrest : ∀ e ∈ rest, e.1.isString = true :=
      fun e he => hkeys e (List.mem_cons_of_mem _ he)
    cases hi : item.isString
    · simp [rangeEntries, hn, hi]
    · simpa [rangeEntries, hn, hi] using ih hrest

theorem rangeEntries_string_values (key : String) (value : Node) (entries : List (Node × Node))
    (hvals : ∀ e ∈ entries, e.1.isString = true → e.2.isString = true) :
    rangeEntries key value entries = .ok () ∨
      rangeEntries key value entries = .error (.parseError (NewParseError key value "map key")) := by
  induction entries with
  | nil => simp [rangeEntries]
  | cons e rest ih =>
    obtain ⟨name, item⟩ := e
    have hrest : ∀ e ∈ rest, e.1.isString = true → e.2.isString = true :=
      fun e he => hvals e (List.mem_cons_of_mem _ he)
    cases hn : name.isString
    · simp [rangeEntries, hn]
    · have hi : item.isString = true := hvals (name, item) (List.mem_cons_self _ _) hn
      simpa [rangeEntries, hn, hi] using ih hrest

theorem rangeEntries_first_invalid (key : String) (value : Node)
    (pre : List (Node × Node)) (e : Node × Node) (post : List (Node × Node))
    (hpre : ∀ x ∈ pre, x.1.isString = true ∧ x.2.isString = true) :
    rangeEntries key value (pre ++ e :: post) = rangeEntries key value (e :: post) := by
  induction pre with
  | nil => rfl
  | cons x rest ih =>
    obtain ⟨name, item⟩ := x
    have hx := hpre (name, item) (List.mem_cons_self _ _)
    have hrest : ∀ y ∈ rest, y.1.isString = true ∧ y.2.isString = true :=
      fun y hy => hpre y (List.mem_cons_of_mem _ hy)
    have hstep : rangeEntries key value ((name, item) :: (rest ++ e :: post)) =
        rangeEntries key value (rest ++ e :: post) := by
      simp [rangeEntries, hx.1, hx.2]
    rw [List.cons_append, hstep, ih hrest]

theorem AssertIsStringArray_seq (key : String) (items : List Node) :
    AssertIsStringArray key (.seq items) = rangeItems key (.seq items) items := rfl

theorem AssertIsStringMap_map (ord : RangeOrder) (key : String) (entries : List (Node × Node)) :
    AssertIsStringMap ord key (.map entries) =
      rangeEntries key (.map entries) (ord.visit entries) := rfl

theorem AssertIsStringArray_not_seq (key : String) (v : Node) (h : v.isArray = false) :
    AssertIsStringArray key v = .error (.parseError (NewParseError key v "array")) := by
  cases v <;> first | rfl | cases h

theorem AssertIsStringMap_not_map (ord : RangeOrder) (key : String) (v : Node)
    (h : v.isMap = false) :
    AssertIsStringMap ord key v = .error (.parseError (NewParseError key v "map")) := by
  cases v <;> first | rfl | cases h

/-! ## Scalar assertions -/

/-- C1: AssertIsBool, AssertIsString and AssertIsInt return silently on a
value of their own primitive kind and raise exactly NewParseError with the
label "bool", "string" or "int" on every other value. Nothing is coerced: the
string "true" is rejected as a bool and every string, a string of digits
included, is rejected as an int. -/
theorem assert_scalar_exact (key : String) (v : Node) :
    (∀ b, AssertIsBool key (.bool b) = .ok ()) ∧
    ((∀ b, v ≠ .bool b) →
      AssertIsBool key v = .error (.parseError (NewParseError key v "bool"))) ∧
    (∀ s, AssertIsString key (.str s) = .ok ()) ∧
    ((∀ s, v ≠ .str s) →
      AssertIsString key v = .error (.parseError (NewParseError key v "string"))) ∧
    (∀ n, AssertIsInt key (.int n) = .ok ()) ∧
    ((∀ n, v ≠ .int n) →
      AssertIsInt key v = .error (.parseError (NewParseError key v "int"))) ∧
    AssertIsBool key (.str "true") =
      .error (.parseError (NewParseError key (.str "true") "bool")) ∧
    (∀ digits, AssertIsInt key (.str digits) =
      .error (.parseError (NewParseError key (.str digits) "int"))) := by
  refine ⟨fun b => rfl, ?_, fun s => rfl, ?_, fun n => rfl, ?_, rfl, fun d => rfl⟩
  · intro h
    cases v <;> first | rfl | exact absurd rfl (h _)
  · intro h
    cases v <;> first | rfl | exact absurd rfl (h _)
  · intro h
    cases v <;> first | rfl | exact absurd rfl (h _)

/-- C1, at the key "stuff" and the sequence `["12"]`, which is neither a
bool, a string nor an int: each of the three assertions raises its own
error. -/
theorem assert_scalar_exact_witness :
    AssertIsBool "stuff" (.seq [.str "12"]) =
      .error (.parseError ⟨"config failed to parse \x7bstuff: [12]\x7d as bool"⟩) ∧
    AssertIsString "stuff" (.seq [.str "12"]) =
      .error (.parseError ⟨"config failed to parse \x7bstuff: [12]\x7d as string"⟩) ∧
    AssertIsInt "stuff" (.seq [.str "12"]) =
      .error (.parseError ⟨"config failed to parse \x7bstuff: [12]\x7d as int"⟩) :=
  have h := assert_scalar_exact "stuff" (.seq [.str "12"])
  ⟨h.2.1 (fun _ e => by cases e), h.2.2.2.1 (fun _ e => by cases e),
    h.2.2.2.2.2.1 (fun _ e => by cases e)⟩

/-! ## Required keys -/

/-- C2: on a mapping node, AssertHasKeys returns without raising exactly when
every required key is a key of the mapping; a mapping with further entries
still passes, and an empty list of required keys never raises. -/
theorem has_keys_returns_iff (m : List (Node × Node)) (keys : List String) (where_ : String) :
    (AssertHasKeys (.map m) keys where_ = .ok () ↔ ∀ k ∈ keys, ∃ e ∈ m, e.1 = .str k) ∧
    (∀ bigger : List (Node × Node), (∀ e ∈ m, e ∈ bigger) →
      (∀ k ∈ keys, ∃ e ∈ m, e.1 = .str k) → AssertHasKeys (.map bigger) keys where_ = .ok ()) ∧
    AssertHasKeys (.map m) [] where_ = .ok () := by
  have key : ∀ m2 : List (Node × Node),
      (AssertHasKeys (.map m2) keys where_ = .ok () ↔ ∀ k ∈ keys, ∃ e ∈ m2, e.1 = .str k) := by
    intro m2
    simp only [AssertHasKeys, rangeKeys_ok_iff, hasKey_iff]
  refine ⟨key m, ?_, rfl⟩
  intro bigger hsub hall
  rw [key bigger]
  intro k hk
  obtain ⟨e, he, hek⟩ := hall k hk
  exact ⟨e, hsub e he, hek⟩

/-- C2, on the mapping `{a: 1, b: 2, c: 3}` with required keys `a` and `b`:
the call returns, the entry `c` being no obstacle. -/
theorem has_keys_returns_iff_witness :
    AssertHasKeys (.map [(.str "a", .int 1), (.str "b", .int 2), (.str "c", .int 3)])
      ["a", "b"] "top" = .ok () :=
  (has_keys_returns_iff [(.str "a", .int 1), (.str "b", .int 2)] ["a", "b"] "top").2.1
    [(.str "a", .int 1), (.str "b", .int 2), (.str "c", .int 3)]
    (by intro e he; simp at he ⊢; rcases he with h | h <;> simp [h])
    (by intro k hk; simp at hk ⊢; rcases hk with h | h <;> simp [h])

/-- C3: on a mapping node that lacks at least one required key, AssertHasKeys
raises a ParseError whose message is `config key {k: ?} not found in <where>`
for the earliest required key `k` (in the order of the list) that the mapping
lacks; listing the mapping's entries in another order gives the same
result. -/
theorem has_keys_first_missing (m : List (Node × Node)) (keys : List String) (where_ : String)
    (h : ∃ k ∈ keys, ∀ e ∈ m, e.1 ≠ .str k) :
    ∃ pre k post, keys = pre ++ k :: post ∧
      (∀ x ∈ pre, ∃ e ∈ m, e.1 = .str x) ∧ (∀ e ∈ m, e.1 ≠ .str k) ∧
      (∃ err : ParseError, AssertHasKeys (.map m) keys where_ = .error (.parseError err) ∧
        err.Error = "config key \x7b" ++ k ++ ": ?\x7d not found in " ++ where_) ∧
      ∀ m2 : List (Node × Node), m2.Perm m →
        AssertHasKeys (.map m2) keys where_ = AssertHasKeys (.map m) keys where_ := by
  have h2 : ∃ k ∈ keys, hasKey m k = false := by
    obtain ⟨k, hk, hm⟩ := h
    exact ⟨k, hk, (hasKey_eq_false_iff m k).mpr hm⟩
  obtain ⟨pre, k, post, hsplit, hpre, hk⟩ := exists_first_missing m keys h2
  refine ⟨pre, k, post, hsplit, ?_, (hasKey_eq_false_iff m k).mp hk, ?_, ?_⟩
  · intro x hx
    exact (hasKey_iff m x).mp (hpre x hx)
  · refine ⟨⟨"config key \x7b" ++ k ++ ": ?\x7d not found in " ++ where_⟩, ?_, rfl⟩
    rw [hsplit]
    exact rangeKeys_append_missing m where_ pre k post hpre hk
  · intro m2 hperm
    exact rangeKeys_perm m2 m hperm where_ keys

/-- C3, on the mapping `{a: 1}` with required keys `a`, `b`, `c` under the
label `top`: the conclusion holds there, `b` being absent. -/
theorem has_keys_first_missing_witness :
    ∃ pre k post, ["a", "b", "c"] = pre ++ k :: post ∧
      (∀ x ∈ pre, ∃ e ∈ [(Node.str "a", Node.int 1)], e.1 = .str x) ∧
      (∀ e ∈ [(Node.str "a", Node.int 1)], e.1 ≠ .str k) ∧
      (∃ err : ParseError,
        AssertHasKeys (.map [(.str "a", .int 1)]) ["a", "b", "c"] "top" =
          .error (.parseError err) ∧
        err.Error = "config key \x7b" ++ k ++ ": ?\x7d not found in " ++ "top") ∧
      ∀ m2 : List (Node × Node), m2.Perm [(.str "a", .int 1)] →
        AssertHasKeys (.map m2) ["a", "b", "c"] "top" =
          AssertHasKeys (.map [(.str "a", .int 1)]) ["a", "b", "c"] "top" :=
  has_keys_first_missing [(.str "a", .int 1)] ["a", "b", "c"] "top"
    ⟨"b", by simp, by simp⟩

/-! ## Sequence and mapping assertions -/

/-- C10: AssertIsArray returns silently on every sequence node, whatever its
elements, and raises exactly NewParseError(key, v, "array") on every other
node; AssertIsMap returns silently on every mapping node, whatever its keys
and values, and raises exactly NewParseError(key, v, "map") on every other
node. -/
theorem assert_array_map_exact (key : String) (v : Node) :
    (∀ items, AssertIsArray key (.seq items) = .ok ()) ∧
    ((∀ items, v ≠ .seq items) →
      AssertIsArray key v = .error (.parseError (NewParseError key v "array"))) ∧
    (∀ entries, AssertIsMap key (.map entries) = .ok ()) ∧
    ((∀ entries, v ≠ .map entries) →
      AssertIsMap key v = .error (.parseError (NewParseError key v "map"))) := by
  refine ⟨fun _ => rfl, ?_, fun _ => rfl, ?_⟩
  · intro h
    cases v <;> first | rfl | exact absurd rfl (h _)
  · intro h
    cases v <;> first | rfl | exact absurd rfl (h _)

/-- C10, at the key "stuff" and the string "invalid", which is neither a
sequence nor a mapping: both assertions raise their own error. -/
theorem assert_array_map_exact_witness :
    AssertIsArray "stuff" (.str "invalid") =
      .error (.parseError ⟨"config failed to parse \x7bstuff: invalid\x7d as array"⟩) ∧
    AssertIsMap "stuff" (.str "invalid") =
      .error (.parseError ⟨"config failed to parse \x7bstuff: invalid\x7d as map"⟩) :=
  have h := assert_array_map_exact "stuff" (.str "invalid")
  ⟨h.2.1 (fun _ e => by cases e), h.2.2.2 (fun _ e => by cases e)⟩

/-- C4: AssertIsStringArray returns silently exactly when the value is a
sequence node all of whose elements are strings, the empty sequence included;
on a sequence with at least one element that is not a string it raises exactly
NewParseError(key, v, "string array"), which carries the whole sequence. -/
theorem string_array_exact (key : String) (v : Node) :
    (AssertIsStringArray key v = .ok () ↔
      ∃ items, v = .seq items ∧ ∀ x ∈ items, ∃ s, x = .str s) ∧
    AssertIsStringArray key (.seq []) = .ok () ∧
    (∀ items : List Node, (∃ x ∈ items, ∀ s, x ≠ .str s) →
      AssertIsStringArray key (.seq items) =
        .error (.parseError (NewParseError key (.seq items) "string array"))) := by
  refine ⟨?_, rfl, ?_⟩
  · constructor
    · intro h
      cases hv : v.isArray
      · rw [AssertIsStringArray_not_seq key v hv] at h
        cases h
      · obtain ⟨items, rfl⟩ := (Node.isArray_iff v).mp hv
        rw [AssertIsStringArray_seq, rangeItems_ok_iff] at h
        exact ⟨items, rfl, fun x hx => (Node.isString_iff x).mp (h x hx)⟩
    · rintro ⟨items, rfl, h⟩
      rw [AssertIsStringArray_seq, rangeItems_ok_iff]
      exact fun x hx => (Node.isString_iff x).mpr (h x hx)
  · rintro items ⟨x, hx, hns⟩
    rw [AssertIsStringArray_seq]
    rcases rangeItems_cases key (.seq items) items with h | h
    · rw [rangeItems_ok_iff] at h
      obtain ⟨s, hs⟩ := (Node.isString_iff x).mp (h x hx)
      exact absurd hs (hns s)
    · exact h

/-- C4, at the key "stuff" and the sequence `[a, 7, true]`: the error names
the whole sequence and the label "string array". -/
theorem string_array_exact_witness :
    AssertIsStringArray "stuff" (.seq [.str "a", .int 7, .bool true]) =
      .error (.parseError ⟨"config failed to parse \x7bstuff: [a 7 true]\x7d as string array"⟩) :=
  (string_array_exact "stuff" (.seq [.str "a", .int 7, .bool true])).2.2
    [.str "a", .int 7, .bool true]
    ⟨.int 7, by simp, fun _ e => by cases e⟩

/-- C5: AssertIsStringMap returns silently exactly when the value is a mapping
node all of whose keys and values are strings, the empty mapping included;
whether it returns or raises is the same for every order in which the entries
are visited. -/
theorem string_map_returns_iff (ord : RangeOrder) (key : String) (v : Node) :
    (AssertIsStringMap ord key v = .ok () ↔
      ∃ entries, v = .map entries ∧ ∀ e ∈ entries, (∃ s, e.1 = .str s) ∧ (∃ s, e.2 = .str s)) ∧
    AssertIsStringMap ord key (.map []) = .ok () ∧
    (∀ ord2 : RangeOrder,
      (AssertIsStringMap ord2 key v).returns = (AssertIsStringMap ord key v).returns) := by
  have main : ∀ o : RangeOrder, (AssertIsStringMap o key v = .ok () ↔
      ∃ entries, v = .map entries ∧
        ∀ e ∈ entries, (∃ s, e.1 = .str s) ∧ (∃ s, e.2 = .str s)) := by
    intro o
    constructor
    · intro h
      cases hv : v.isMap
      · rw [AssertIsStringMap_not_map o key v hv] at h
        cases h
      · obtain ⟨entries, rfl⟩ := (Node.isMap_iff v).mp hv
        rw [AssertIsStringMap_map, rangeEntries_ok_iff] at h
        refine ⟨entries, rfl, fun e he => ?_⟩
        have := h e ((o.perm entries).mem_iff.mpr he)
        exact ⟨(Node.isString_iff _).mp this.1, (Node.isString_iff _).mp this.2⟩
    · rintro ⟨entries, rfl, h⟩
      rw [AssertIsStringMap_map, rangeEntries_ok_iff]
      intro e he
      have := h e ((o.perm entries).mem_iff.mp he)
      exact ⟨(Node.isString_iff _).mpr this.1, (Node.isString_iff _).mpr this.2⟩
  have ret : ∀ r : Outcome, r.returns = true ↔ r = .ok () := by
    intro r
    cases r with
    | ok u => cases u; simp [Outcome.returns]
    | error p => simp [Outcome.returns]
  refine ⟨main ord, ?_, ?_⟩
  · rw [AssertIsStringMap_map, rangeEntries_ok_iff]
    intro e he
    have := (ord.perm []).mem_iff.mp he
    cases this
  · intro ord2
    rw [Bool.eq_iff_iff, ret, ret, main ord2, main ord]

/-- C5, at the key "env" and the mapping `{HOME: /root, LANG: C}`: the call
returns when the entries are visited from the last to the first. -/
theorem string_map_returns_iff_witness :
    AssertIsStringMap .backwards "env"
      (.map [(.str "HOME", .str "/root"), (.str "LANG", .str "C")]) = .ok () :=
  (string_map_returns_iff .backwards "env"
      (.map [(.str "HOME", .str "/root"), (.str "LANG", .str "C")])).1.mpr
    ⟨_, rfl, by intro e he; simp at he; rcases he with h | h <;> simp [h]⟩

/-! ## Text of a value -/

/-- C7 as stated fails: handed the sequence `[stuff]` instead of a mapping,
AssertHasKeys fails in the type assertion on its first line, with the
runtime's error and not with a ParseError. -/
theorem has_keys_on_sequence_not_parse_error :
    AssertHasKeys (.seq [.str "stuff"]) ["stuff"] "top" =
      .error (.typeAssertion "map[interface {}]interface {}") ∧
    (AssertHasKeys (.seq [.str "stuff"]) ["stuff"] "top").onlyParseError = false ∧
    ¬ ∃ err : ParseError,
      AssertHasKeys (.seq [.str "stuff"]) ["stuff"] "top" = .error (.parseError err) := by
  refine ⟨rfl, rfl, ?_⟩
  rintro ⟨err, h⟩
  cases h

/-- C7, amended: the seven AssertIs primitives on every node, and
AssertHasKeys on every mapping node, either return or raise a ParseError;
the type assertions inside AssertIsStringArray and AssertIsStringMap never
fail. -/
theorem failures_are_parse_errors (ord : RangeOrder) (key : String) (v : Node)
    (m : List (Node × Node)) (keys : List String) (where_ : String) :
    (AssertHasKeys (.map m) keys where_).onlyParseError = true ∧
    (AssertIsBool key v).onlyParseError = true ∧
    (AssertIsString key v).onlyParseError = true ∧
    (AssertIsInt key v).onlyParseError = true ∧
    (AssertIsArray key v).onlyParseError = true ∧
    (AssertIsStringArray key v).onlyParseError = true ∧
    (AssertIsMap key v).onlyParseError = true ∧
    (AssertIsStringMap ord key v).onlyParseError = true := by
  refine ⟨?_, ?_, ?_, ?_, ?_, ?_, ?_, ?_⟩
  · show (rangeKeys m where_ keys).onlyParseError = true
    induction keys with
    | nil => rfl
    | cons k rest ih =>
      cases hk : hasKey m k
      · simp [rangeKeys, hk, Outcome.onlyParseError]
      · simpa [rangeKeys, hk] using ih
  · cases v <;> rfl
  · cases v <;> rfl
  · cases v <;> rfl
  · cases v <;> rfl
  · cases hv : v.isArray
    · rw [AssertIsStringArray_not_seq key v hv]; rfl
    · obtain ⟨items, rfl⟩ := (Node.isArray_iff v).mp hv
      rw [AssertIsStringArray_seq]
      rcases rangeItems_cases key (.seq items) items with h | h <;> rw [h] <;> rfl
  · cases v <;> rfl
  · cases hv : v.isMap
    · rw [AssertIsStringMap_not_map ord key v hv]; rfl
    · obtain ⟨entries, rfl⟩ := (Node.isMap_iff v).mp hv
      rw [AssertIsStringMap_map]
      rcases rangeEntries_cases key (.map entries) (ord.visit entries) with h | h | h <;>
        rw [h] <;> rfl

/-! ## Labels raised by AssertIsStringMap -/

/-- C8 as stated fails: the mapping `{a: 1, 2: b}` has the non-string key `2`,
yet when the entry `a: 1` is visited first the error raised carries the label
"map value", not "map key". -/
theorem string_map_key_label_depends_on_order :
    AssertIsStringMap .listed "k" (.map [(.str "a", .int 1), (.int 2, .str "b")]) =
      .error (.parseError (NewParseError "k"
        (.map [(.str "a", .int 1), (.int 2, .str "b")]) "map value")) ∧
    AssertIsStringMap .listed "k" (.map [(.str "a", .int 1), (.int 2, .str "b")]) ≠
      .error (.parseError (NewParseError "k"
        (.map [(.str "a", .int 1), (.int 2, .str "b")]) "map key")) := by
  decide

/-- C8, amended: on a mapping node with at least one non-string key,
AssertIsStringMap raises a ParseError built from the key and the whole
mapping, with the label "map key" or "map value". The label is decided by the
first entry visited that has a non-string key or a non-string value: "map key"
when its key is not a string, "map value" when its key is a string and its
value is not. It is "map key" in every order when each entry with a string key
has a string value. -/
theorem string_map_non_string_key (ord : RangeOrder) (key : String)
    (entries : List (Node × Node)) (h : ∃ e ∈ entries, ∀ s, e.1 ≠ .str s) :
    (AssertIsStringMap ord key (.map entries) =
        .error (.parseError (NewParseError key (.map entries) "map key")) ∨
      AssertIsStringMap ord key (.map entries) =
        .error (.parseError (NewParseError key (.map entries) "map value"))) ∧
    (∀ pre e post, ord.visit entries = pre ++ e :: post →
      (∀ x ∈ pre, (∃ s, x.1 = .str s) ∧ (∃ s, x.2 = .str s)) → (∀ s, e.1 ≠ .str s) →
      AssertIsStringMap ord key (.map entries) =
        .error (.parseError (NewParseError key (.map entries) "map key"))) ∧
    (∀ pre e post, ord.visit entries = pre ++ e :: post →
      (∀ x ∈ pre, (∃ s, x.1 = .str s) ∧ (∃ s, x.2 = .str s)) →
      (∃ s, e.1 = .str s) → (∀ s, e.2 ≠ .str s) →
      AssertIsStringMap ord key (.map entries) =
        .error (.parseError (NewParseError key (.map entries) "map value"))) ∧
    ((∀ e ∈ entries, (∃ s, e.1 = .str s) → ∃ s, e.2 = .str s) →
      AssertIsStringMap ord key (.map entries) =
        .error (.parseError (NewParseError key (.map entries) "map key"))) := by
  have hnot : rangeEntries key (.map entries) (ord.visit entries) ≠ .ok () := by
    intro hok
    rw [rangeEntries_ok_iff] at hok
    obtain ⟨e, he, hne⟩ := h
    obtain ⟨s, hs⟩ := (Node.isString_iff _).mp (hok e ((ord.perm entries).mem_iff.mpr he)).1
    exact hne s hs
  have hpre : ∀ pre : List (Node × Node),
      (∀ x ∈ pre, (∃ s, x.1 = .str s) ∧ (∃ s, x.2 = .str s)) →
      ∀ x ∈ pre, x.1.isString = true ∧ x.2.isString = true :=
    fun pre hp x hx =>
      ⟨(Node.isString_iff _).mpr (hp x hx).1, (Node.isString_iff _).mpr (hp x hx).2⟩
  rw [AssertIsStringMap_map]
  refine ⟨?_, ?_, ?_, ?_⟩
  · rcases rangeEntries_cases key (.map entries) (ord.visit entries) with h1 | h1 | h1
    · exact absurd h1 hnot
    · exact Or.inl h1
    · exact Or.inr h1
  · intro pre e post hsplit hp hne
    obtain ⟨name, item⟩ := e
    have hn : name.isString = false := by
      rw [← Bool.not_eq_true, Node.isString_iff]
      rintro ⟨s, hs⟩
      exact hne s hs
    rw [hsplit, rangeEntries_first_invalid key _ pre _ post (hpre pre hp)]
    simp [rangeEntries, hn]
  · intro pre e post hsplit hp hstr hne
    obtain ⟨name, item⟩ := e
    have hn : name.isString = true := (Node.isString_iff _).mpr hstr
    have hi : item.isString = false := by
      rw [← Bool.not_eq_true, Node.isString_iff]
      rintro ⟨s, hs⟩
      exact hne s hs
    rw [hsplit, rangeEntries_first_invalid key _ pre _ post (hpre pre hp)]
    simp [rangeEntries, hn, hi]
  · intro hvals
    have hv : ∀ e ∈ ord.visit entries, e.1.isString = true → e.2.isString = true := by
      intro e he hs
      exact (Node.isString_iff _).mpr
        (hvals e ((ord.perm entries).mem_iff.mp he) ((Node.isString_iff _).mp hs))
    rcases rangeEntries_string_values key (.map entries) (ord.visit entries) hv with h1 | h1
    · exact absurd h1 hnot
    · exact h1

/-- C8, amended, on the mapping `{a: x, 2: b, c: 3}` visited from the last
entry to the first: `c: 3` comes first and the label is "map value". -/
theorem string_map_non_string_key_witness :
    AssertIsStringMap .backwards "k"
        (.map [(.str "a", .str "x"), (.int 2, .str "b"), (.str "c", .int 3)]) =
      .error (.parseError ⟨"config failed to parse \x7bk: map[a:x c:3 2:b]\x7d as map value"⟩) :=
  (string_map_non_string_key .backwards "k"
      [(.str "a", .str "x"), (.int 2, .str "b"), (.str "c", .int 3)]
      ⟨(.int 2, .str "b"), by simp, fun _ e => by cases e⟩).2.2.1
    [] (.str "c", .int 3) [(.int 2, .str "b"), (.str "a", .str "x")] rfl
    (by simp) ⟨"c", rfl⟩ (fun _ e => by cases e)

/-- C9 as stated fails: on the mapping `{a: 1}`, whose only key is a string
and whose value is not, the base check AssertIsMap returns silently and
AssertIsStringMap raises with the label "map value", not "map". -/
theorem string_map_value_label_is_not_map :
    AssertIsMap "k" (.map [(.str "a", .int 1)]) = .ok () ∧
    AssertIsStringMap .listed "k" (.map [(.str "a", .int 1)]) =
      .error (.parseError ⟨"config failed to parse \x7bk: map[a:1]\x7d as map value"⟩) ∧
    AssertIsStringMap .listed "k" (.map [(.str "a", .int 1)]) ≠
      .error (.parseError (NewParseError "k" (.map [(.str "a", .int 1)]) "map")) := by
  decide

/-- C9, amended: on a mapping node whose keys are all strings and which has at
least one non-string value, AssertIsStringMap raises exactly
NewParseError(key, v, "map value"), in every order of visit. -/
theorem string_map_non_string_value (ord : RangeOrder) (key : String)
    (entries : List (Node × Node)) (hkeys : ∀ e ∈ entries, ∃ s, e.1 = .str s)
    (hval : ∃ e ∈ entries, ∀ s, e.2 ≠ .str s) :
    AssertIsStringMap ord key (.map entries) =
      .error (.parseError (NewParseError key (.map entries) "map value")) := by
  rw [AssertIsStringMap_map]
  have hk : ∀ e ∈ ord.visit entries, e.1.isString = true := fun e he =>
    (Node.isString_iff _).mpr (hkeys e ((ord.perm entries).mem_iff.mp he))
  rcases rangeEntries_string_keys key (.map entries) (ord.visit entries) hk with h1 | h1
  · rw [rangeEntries_ok_iff] at h1
    obtain ⟨e, he, hne⟩ := hval
    obtain ⟨s, hs⟩ := (Node.isString_iff _).mp (h1 e ((ord.perm entries).mem_iff.mpr he)).2
    exact absurd hs (hne s)
  · exact h1

/-- C9, amended, on the mapping `{a: x, b: [y]}`. -/
theorem string_map_non_string_value_witness :
    AssertIsStringMap .backwards "k"
        (.map [(.str "a", .str "x"), (.str "b", .seq [.str "y"])]) =
      .error (.parseError ⟨"config failed to parse \x7bk: map[a:x b:[y]]\x7d as map value"⟩) :=
  string_map_non_string_value .backwards "k"
    [(.str "a", .str "x"), (.str "b", .seq [.str "y"])]
    (by intro e he; simp at he; rcases he with h | h <;> simp [h])
    ⟨(.str "b", .seq [.str "y"]), by simp, fun _ e => by cases e⟩

/-! ## Auxiliary facts on the getters -/

theorem GetMapItem_absent (m : List (Node × Node)) (k : String)
    (habs : ∀ e ∈ m, e.1 ≠ .str k) : GetMapItem m k = none := by
  induction m with
  | nil => rfl
  | cons e rest ih =>
    obtain ⟨name, item⟩ := e
    have hn : name.isStr k = false := by
      rw [← Bool.not_eq_true, Node.isStr_iff]
      exact habs (name, item) (List.mem_cons_self _ _)
    have hrest : ∀ e ∈ rest, e.1 ≠ .str k := fun e he => habs e (List.mem_cons_of_mem _ he)
    simp [GetMapItem, hn, ih hrest]

theorem GetMapItem_present (m : List (Node × Node)) (k : String) (v : Node)
    (hin : (Node.str k, v) ∈ m) (huniq : ∀ e ∈ m, e.1 = .str k → e.2 = v) :
    GetMapItem m k = some v := by
  induction m with
  | nil => simp at hin
  | cons e rest ih =>
    obtain ⟨name, item⟩ := e
    cases hn : name.isStr k
    · have hne : name ≠ .str k := by
        intro h
        rw [← Node.isStr_iff, hn] at h
        cases h
      have hin2 : (Node.str k, v) ∈ rest := by
        rcases List.mem_cons.mp hin with h | h
        · exact absurd (congrArg Prod.fst h).symm hne
        · exact h
      have hu2 : ∀ e ∈ rest, e.1 = .str k → e.2 = v :=
        fun e he => huniq e (List.mem_cons_of_mem _ he)
      simp [GetMapItem, hn, ih hin2 hu2]
    · have hv : item = v :=
        huniq (name, item) (List.mem_cons_self _ _) ((Node.isStr_iff k name).mp hn)
      simp [GetMapItem, hn, hv]

/-! ## Getters: absent key, value of the asserted type -/

/-- C11: when the key is absent from the mapping, each of GetBool, GetString,
GetInt, GetStringArray, GetDuration and GetSignal returns exactly the default
it was given and does not raise, whatever that default is: nothing is asserted
of it, a duration default is not multiplied and a signal default is not looked
up. -/
theorem getters_return_default (tbl : CaseTable) (registry : List (String × Signal))
    (m : List (Node × Node)) (k : String) (habs : ∀ e ∈ m, e.1 ≠ .str k) :
    (∀ d : Bool, GetBool m k d = .ok d) ∧
    (∀ d : String, GetString m k d = .ok d) ∧
    (∀ d : Int, GetInt m k d = .ok d) ∧
    (∀ d : List String, GetStringArray m k d = .ok d) ∧
    (∀ d : Duration, GetDuration m k d = .ok d) ∧
    (∀ d : Signal, GetSignal tbl registry m k d = .ok d) := by
  have h := GetMapItem_absent m k habs
  refine ⟨?_, ?_, ?_, ?_, ?_, ?_⟩ <;> intro d
  · simp [GetBool, h]
  · simp [GetString, h]
  · simp [GetInt, h]
  · simp [GetStringArray, h]
  · simp [GetDuration, h]
  · simp [GetSignal, h]

/-- C11, on the mapping `{stuff: true}` and the absent key "missing": the
defaults `false`, 36 seconds and SIGTERM (15) come back as they are. -/
theorem getters_return_default_witness :
    GetBool [(.str "stuff", .bool true)] "missing" false = .ok false ∧
    GetDuration [(.str "stuff", .bool true)] "missing" ⟨36000000000⟩ = .ok ⟨36000000000⟩ ∧
    GetSignal .basic linuxSignals [(.str "stuff", .bool true)] "missing" 15 = .ok 15 :=
  have h := getters_return_default .basic linuxSignals [(.str "stuff", .bool true)] "missing"
    (by intro e he; simp at he; simp [he])
  ⟨h.1 false, h.2.2.2.2.1 ⟨36000000000⟩, h.2.2.2.2.2 15⟩

/-- C12: when the mapping maps the key to a value of the asserted type, GetBool
returns that boolean, GetString that string and GetInt that integer, whatever
the default. -/
theorem scalar_getters_pass_through (m : List (Node × Node)) (k : String) (v : Node)
    (hin : (Node.str k, v) ∈ m) (huniq : ∀ e ∈ m, e.1 = .str k → e.2 = v) :
    (∀ (b d : Bool), v = .bool b → GetBool m k d = .ok b) ∧
    (∀ (s d : String), v = .str s → GetString m k d = .ok s) ∧
    (∀ (n d : Int), v = .int n → GetInt m k d = .ok n) := by
  have h := GetMapItem_present m k v hin huniq
  refine ⟨?_, ?_, ?_⟩
  · intro b d hv
    subst hv
    simp [GetBool, h]
    rfl
  · intro s d hv
    subst hv
    simp [GetString, h]
    rfl
  · intro n d hv
    subst hv
    simp [GetInt, h]
    rfl

/-- C12, on the mapping `{stuff: 12}` with the default 36. -/
theorem scalar_getters_pass_through_witness :
    GetInt [(.str "stuff", .int 12)] "stuff" 36 = .ok 12 :=
  (scalar_getters_pass_through [(.str "stuff", .int 12)] "stuff" (.int 12)
    (by simp) (by intro e he _; simp at he; simp [he])).2.2 12 36 rfl

/-! ## Getters: value of another type -/

theorem NewParseError_names (key : String) (value : Node) (what : String) :
    (NewParseError key value what).names key value what := by
  unfold ParseError.names ParseError.Error NewParseError
  by_cases hk : key = ""
  · subst hk
    simp only [beq_self_eq_true, if_true, String.data_append]
    refine ⟨?_, ?_, ?_⟩
    · exact ⟨[], _, rfl⟩
    · exact ⟨"config failed to parse ".data, " as ".data ++ what.data, by
        simp [List.append_assoc]⟩
    · exact ⟨"config failed to parse ".data ++ (fmtV value).data ++ " as ".data, [], by simp⟩
  · have hb : (key == "") = false := by simpa using hk
    simp only [hb, String.data_append]
    refine ⟨?_, ?_, ?_⟩
    · exact ⟨"config failed to parse \x7b".data,
        ": ".data ++ (fmtV value).data ++ "\x7d as ".data ++ what.data, by
          simp [List.append_assoc]⟩
    · exact ⟨"config failed to parse \x7b".data ++ key.data ++ ": ".data,
        "\x7d as ".data ++ what.data, by simp [List.append_assoc]⟩
    · exact ⟨"config failed to parse \x7b".data ++ key.data ++ ": ".data ++
        (fmtV value).data ++ "\x7d as ".data, [], by simp⟩

theorem AssertIsBool_not_bool (key : String) (v : Node) (h : ∀ b, v ≠ .bool b) :
    AssertIsBool key v = .error (.parseError (NewParseError key v "bool")) := by
  cases v <;> first | rfl | exact absurd rfl (h _)

theorem AssertIsString_not_string (key : String) (v : Node) (h : ∀ s, v ≠ .str s) :
    AssertIsString key v = .error (.parseError (NewParseError key v "string")) := by
  cases v <;> first | rfl | exact absurd rfl (h _)

theorem AssertIsInt_not_int (key : String) (v : Node) (h : ∀ n, v ≠ .int n) :
    AssertIsInt key v = .error (.parseError (NewParseError key v "int")) := by
  cases v <;> first | rfl | exact absurd rfl (h _)

/-- C13 as stated fails for GetStringArray: on the mapping `{stuff: invalid}`,
the input of TestGetStringArrayAssert, the message raised ends in `as array`
and does not contain the label "string array". -/
theorem string_array_getter_says_array :
    GetStringArray [(.str "stuff", .str "invalid")] "stuff" ["default"] =
      .error (.parseError ⟨"config failed to parse \x7bstuff: invalid\x7d as array"⟩) ∧
    ¬ ("string array".data <:+:
      (ParseError.mk "config failed to parse \x7bstuff: invalid\x7d as array").Error.data) := by
  decide

/-- C13, amended: when the mapping maps the key to a value that is not of the
asserted type, the getter does not return but raises NewParseError(k, v,
label), whose message contains the key, the text of the value and the label.
The label is "bool" for GetBool, "string" for GetString, "int" for GetInt and
for GetDuration; for GetStringArray it is "array" when the value is not a
sequence and "string array" when it is a sequence with an element that is not
a string. -/
theorem getters_reject_other_types (m : List (Node × Node)) (k : String) (v : Node)
    (hin : (Node.str k, v) ∈ m) (huniq : ∀ e ∈ m, e.1 = .str k → e.2 = v) :
    ((∀ b, v ≠ .bool b) → ∀ d, raisesParseError (GetBool m k d) k v "bool") ∧
    ((∀ s, v ≠ .str s) → ∀ d, raisesParseError (GetString m k d) k v "string") ∧
    ((∀ n, v ≠ .int n) → ∀ d, raisesParseError (GetInt m k d) k v "int") ∧
    ((∀ n, v ≠ .int n) → ∀ d, raisesParseError (GetDuration m k d) k v "int") ∧
    ((∀ items, v ≠ .seq items) → ∀ d, raisesParseError (GetStringArray m k d) k v "array") ∧
    (∀ items, v = .seq items → (∃ x ∈ items, ∀ s, x ≠ .str s) →
      ∀ d, raisesParseError (GetStringArray m k d) k v "string array") := by
  have h := GetMapItem_present m k v hin huniq
  refine ⟨?_, ?_, ?_, ?_, ?_, ?_⟩
  · intro hv d
    refine ⟨?_, NewParseError_names k v "bool"⟩
    simp only [GetBool, h, AssertIsBool_not_bool k v hv]
    rfl
  · intro hv d
    refine ⟨?_, NewParseError_names k v "string"⟩
    simp only [GetString, h, AssertIsString_not_string k v hv]
    rfl
  · intro hv d
    refine ⟨?_, NewParseError_names k v "int"⟩
    simp only [GetInt, h, AssertIsInt_not_int k v hv]
    rfl
  · intro hv d
    refine ⟨?_, NewParseError_names k v "int"⟩
    simp only [GetDuration, h, AssertIsInt_not_int k v hv]
    rfl
  · intro hv d
    refine ⟨?_, NewParseError_names k v "array"⟩
    have hna : v.isArray = false := by
      rw [← Bool.not_eq_true, Node.isArray_iff]
      rintro ⟨items, hi⟩
      exact hv items hi
    simp only [GetStringArray, h, AssertIsStringArray_not_seq k v hna]
    rfl
  · rintro items rfl ⟨x, hx, hns⟩ d
    refine ⟨?_, NewParseError_names k (.seq items) "string array"⟩
    have herr : AssertIsStringArray k (.seq items) =
        .error (.parseError (NewParseError k (.seq items) "string array")) := by
      rw [AssertIsStringArray_seq]
      rcases rangeItems_cases k (.seq items) items with h1 | h1
      · rw [rangeItems_ok_iff] at h1
        obtain ⟨s, hs⟩ := (Node.isString_iff x).mp (h1 x hx)
        exact absurd hs (hns s)
      · exact h1
    simp only [GetStringArray, h, herr]
    rfl

/-- C13, amended, on the mappings `{stuff: invalid}`, `{stuff: true}` and
`{stuff: [a, 7]}`: each getter raises on the value that is not of its type,
GetInt with a message that contains "stuff", "invalid" and "int". -/
theorem getters_reject_other_types_witness :
    raisesParseError (GetBool [(.str "stuff", .str "invalid")] "stuff" true)
      "stuff" (.str "invalid") "bool" ∧
    raisesParseError (GetInt [(.str "stuff", .str "invalid")] "stuff" 42)
      "stuff" (.str "invalid") "int" ∧
    raisesParseError (GetDuration [(.str "stuff", .str "invalid")] "stuff" ⟨42000000000⟩)
      "stuff" (.str "invalid") "int" ∧
    raisesParseError (GetStringArray [(.str "stuff", .str "invalid")] "stuff" ["default"])
      "stuff" (.str "invalid") "array" ∧
    raisesParseError (GetString [(.str "stuff", .bool true)] "stuff" "default")
      "stuff" (.bool true) "string" ∧
    raisesParseError (GetStringArray [(.str "stuff", .seq [.str "a", .int 7])] "stuff" [])
      "stuff" (.seq [.str "a", .int 7]) "string array" :=
  have h1 := getters_reject_other_types [(.str "stuff", .str "invalid")] "stuff"
    (.str "invalid") (by simp) (by intro e he _; simp at he; simp [he])
  have h2 := getters_reject_other_types [(.str "stuff", .bool true)] "stuff"
    (.bool true) (by simp) (by intro e he _; simp at he; simp [he])
  have h3 := getters_reject_other_types [(.str "stuff", .seq [.str "a", .int 7])] "stuff"
    (.seq [.str "a", .int 7]) (by simp) (by intro e he _; simp at he; simp [he])
  ⟨h1.1 (fun _ e => by cases e) true, h1.2.2.1 (fun _ e => by cases e) 42,
    h1.2.2.2.1 (fun _ e => by cases e) ⟨42000000000⟩,
    h1.2.2.2.2.1 (fun _ e => by cases e) ["default"],
    h2.2.1 (fun _ e => by cases e) "default",
    h3.2.2.2.2.2 [.str "a", .int 7] rfl ⟨.int 7, by simp, fun _ e => by cases e⟩ []⟩

/-! ## Durations and string arrays -/

theorem wrapInt64_of_fits (x : Int) (hlo : -9223372036854775808 ≤ x)
    (hhi : x ≤ 9223372036854775807) : wrapInt64 x = x := by
  unfold wrapInt64
  norm_num
  omega

theorem itemStrings_of_strings (items : List Node) (h : ∀ x ∈ items, x.isString = true) :
    ∃ out, itemStrings items = .ok out ∧ out.map Node.str = items := by
  induction items with
  | nil => exact ⟨[], rfl, rfl⟩
  | cons x rest ih =>
    obtain ⟨s, rfl⟩ := (Node.isString_iff x).mp (h x (List.mem_cons_self _ _))
    obtain ⟨out, hout, hmap⟩ := ih (fun y hy => h y (List.mem_cons_of_mem _ hy))
    refine ⟨s :: out, ?_, by simp [hmap]⟩
    simp only [itemStrings, hout]
    rfl

/-- C14: when the mapping maps the key to the integer `n`, GetDuration returns
`n` times one second in the duration unit, `time.Duration(n) * time.Second`,
whatever the default; that is exactly `n` thousand million nanoseconds
whenever this count fits the 64 bits of a duration (12 gives 12s). When the
value under the key is not an integer, GetDuration raises instead. -/
theorem duration_counts_seconds (m : List (Node × Node)) (k : String) (v : Node)
    (hin : (Node.str k, v) ∈ m) (huniq : ∀ e ∈ m, e.1 = .str k → e.2 = v) (d : Duration) :
    (∀ n, v = .int n →
      GetDuration m k d = .ok (Duration.mul (Duration.ofInt n) Second) ∧
      (-9223372036 ≤ n → n ≤ 9223372036 → GetDuration m k d = .ok ⟨n * 1000000000⟩)) ∧
    ((∀ n, v ≠ .int n) →
      GetDuration m k d = .error (.parseError (NewParseError k v "int"))) := by
  have h := GetMapItem_present m k v hin huniq
  refine ⟨?_, ?_⟩
  · rintro n rfl
    have hres : GetDuration m k d = .ok (Duration.mul (Duration.ofInt n) Second) := by
      simp only [GetDuration, h]
      rfl
    refine ⟨hres, ?_⟩
    intro hlo hhi
    rw [hres]
    have h1 : wrapInt64 n = n := wrapInt64_of_fits n (by omega) (by omega)
    have h2 : wrapInt64 (n * 1000000000) = n * 1000000000 :=
      wrapInt64_of_fits _ (by omega) (by omega)
    simp only [Duration.mul, Duration.ofInt, Second, h1, h2]
  · intro hv
    simp only [GetDuration, h, AssertIsInt_not_int k v hv]
    rfl

/-- C14, on the mapping `{stuff: 12}` with the default 36s: the result is 12s,
that is 12000000000 nanoseconds. -/
theorem duration_counts_seconds_witness :
    GetDuration [(.str "stuff", .int 12)] "stuff" ⟨36000000000⟩ = .ok ⟨12 * 1000000000⟩ :=
  ((duration_counts_seconds [(.str "stuff", .int 12)] "stuff" (.int 12)
    (by simp) (by intro e he _; simp at he; simp [he]) ⟨36000000000⟩).1 12 rfl).2
    (by decide) (by decide)

/-- C15: when the mapping maps the key to a sequence all of whose elements are
strings, GetStringArray returns a sequence of strings of the same length whose
element at every index is the element of the source at that index, whatever
the default. -/
theorem string_array_keeps_order (m : List (Node × Node)) (k : String) (s : List Node)
    (hin : (Node.str k, Node.seq s) ∈ m) (huniq : ∀ e ∈ m, e.1 = .str k → e.2 = .seq s)
    (hstr : ∀ x ∈ s, ∃ t, x = .str t) (d : List String) :
    ∃ out : List String, GetStringArray m k d = .ok out ∧ out.length = s.length ∧
      (∀ i, i < s.length → s[i]? = (out[i]?).map Node.str) ∧ out.map Node.str = s := by
  have h := GetMapItem_present m k (.seq s) hin huniq
  have hs : ∀ x ∈ s, x.isString = true := fun x hx => (Node.isString_iff x).mpr (hstr x hx)
  obtain ⟨out, hout, hmap⟩ := itemStrings_of_strings s hs
  have hok : AssertIsStringArray k (.seq s) = .ok () := by
    rw [AssertIsStringArray_seq, rangeItems_ok_iff]
    exact hs
  refine ⟨out, ?_, ?_, ?_, hmap⟩
  · simp only [GetStringArray, h, hok]
    exact hout
  · rw [← hmap, List.length_map]
  · intro i _
    rw [← hmap, List.getElem?_map]

/-- C15, on the mapping `{stuff: [b, a, b]}`: the three strings come back in
the order of the source. -/
theorem string_array_keeps_order_witness :
    ∃ out : List String,
      GetStringArray [(.str "stuff", .seq [.str "b", .str "a", .str "b"])] "stuff" ["default"] =
        .ok out ∧
      out.length = [Node.str "b", Node.str "a", Node.str "b"].length ∧
      (∀ i, i < [Node.str "b", Node.str "a", Node.str "b"].length →
        [Node.str "b", Node.str "a", Node.str "b"][i]? = (out[i]?).map Node.str) ∧
      out.map Node.str = [.str "b", .str "a", .str "b"] :=
  string_array_keeps_order [(.str "stuff", .seq [.str "b", .str "a", .str "b"])] "stuff"
    [.str "b", .str "a", .str "b"] (by simp) (by intro e he _; simp at he; simp [he])
    (by intro x hx; simp at hx; rcases hx with h | h | h <;> simp [h]) ["default"]

/-! ## Signal lookup -/

theorem trimLeft_map_upper (tbl : CaseTable) (l : List Char) :
    trimLeft (l.map tbl.upper) = (trimLeft l).map tbl.upper := by
  induction l with
  | nil => rfl
  | cons c cs ih =>
    cases hc : isSpace c
    · simp [trimLeft, tbl.space, hc]
    · simp [trimLeft, tbl.space, hc, ih]

theorem trimRight_map_upper (tbl : CaseTable) (l : List Char) :
    trimRight (l.map tbl.upper) = (trimRight l).map tbl.upper := by
  induction l with
  | nil => rfl
  | cons c cs ih =>
    cases hc : isSpace c <;> cases ht : trimRight cs <;>
      simp [trimRight, tbl.space, hc, ih, ht]

theorem trimLeft_trimLeft (l : List Char) : trimLeft (trimLeft l) = trimLeft l := by
  induction l with
  | nil => rfl
  | cons c cs ih =>
    cases hc : isSpace c
    · simp [trimLeft, hc]
    · simp [trimLeft, hc, ih]

theorem trimRight_trimRight (l : List Char) : trimRight (trimRight l) = trimRight l := by
  induction l with
  | nil => rfl
  | cons c cs ih =>
    cases hc : isSpace c <;> cases he : (trimRight cs).isEmpty <;>
      simp [trimRight, hc, ih, he]

theorem trimLeft_trimRight_trimLeft (l : List Char) :
    trimLeft (trimRight (trimLeft l)) = trimRight (trimLeft l) := by
  induction l with
  | nil => rfl
  | cons c cs ih =>
    cases hc : isSpace c
    · simp [trimLeft, trimRight, hc]
    · simp [trimLeft, hc, ih]

theorem TrimSpace_TrimSpace (s : String) : TrimSpace (TrimSpace s) = TrimSpace s := by
  simp [TrimSpace, trimLeft_trimRight_trimLeft, trimRight_trimRight]

theorem ToUpper_ToUpper (tbl : CaseTable) (s : String) :
    ToUpper tbl (ToUpper tbl s) = ToUpper tbl s := by
  simp [ToUpper, Function.comp_def, tbl.upper_upper]

theorem TrimSpace_ToUpper (tbl : CaseTable) (s : String) :
    TrimSpace (ToUpper tbl s) = ToUpper tbl (TrimSpace s) := by
  simp [TrimSpace, ToUpper, trimLeft_map_upper, trimRight_map_upper]

theorem ToUpper_of_ascii (tbl : CaseTable) (s : String)
    (h : s.data.all (fun c => decide (c.toNat < 128)) = true) :
    ToUpper tbl s = ⟨s.data.map upperASCII⟩ := by
  unfold ToUpper
  congr 1
  apply List.map_congr_left
  intro c hc
  have := List.all_eq_true.mp h c hc
  exact tbl.ascii c (by simpa using this)

theorem LookupSignal_of_ascii (tbl : CaseTable) (registry : List (String × Signal))
    (name : String) (h : (TrimSpace name).data.all (fun c => decide (c.toNat < 128)) = true) :
    LookupSignal tbl registry name =
      registryLookup registry ⟨(TrimSpace name).data.map upperASCII⟩ := by
  unfold LookupSignal
  rw [ToUpper_of_ascii tbl _ h]

theorem registryLookup_found_iff (registry : List (String × Signal)) (wanted : String) :
    (registryLookup registry wanted).2 = true ↔ ∃ e ∈ registry, e.1 = wanted := by
  induction registry with
  | nil => simp [registryLookup]
  | cons e rest ih =>
    obtain ⟨name, sig⟩ := e
    by_cases hn : name = wanted
    · simp [registryLookup, hn]
    · simp [registryLookup, hn, ih]

/-- C16: LookupSignal never raises (it is a total function to a pair) and
gives for every name the pair it gives for the name trimmed of surrounding
white space and with all its letters upper-cased, whatever Unicode's table of
upper cases is; upper-casing alone or trimming alone changes nothing either.
`found` is true exactly when the trimmed, upper-cased name is a key of the
registry. In the registry of Linux "SIGINT", "\tSIGTERM      ", "Sigsegv" and
"sigTrap  " are found and "SIGFART" is not; a name written with the long s,
whose upper case is `S`, is found as SIGINT. -/
theorem lookup_signal_normalises (tbl : CaseTable) (registry : List (String × Signal))
    (name : String) :
    LookupSignal tbl registry name =
      LookupSignal tbl registry (ToUpper tbl (TrimSpace name)) ∧
    LookupSignal tbl registry (ToUpper tbl name) = LookupSignal tbl registry name ∧
    LookupSignal tbl registry (TrimSpace name) = LookupSignal tbl registry name ∧
    ((LookupSignal tbl registry name).2 = true ↔
      ∃ e ∈ registry, e.1 = ToUpper tbl (TrimSpace name)) ∧
    LookupSignal tbl linuxSignals "SIGINT" = (2, true) ∧
    LookupSignal tbl linuxSignals "\tSIGTERM      " = (15, true) ∧
    LookupSignal tbl linuxSignals "Sigsegv" = (11, true) ∧
    LookupSignal tbl linuxSignals "sigTrap  " = (5, true) ∧
    (LookupSignal tbl linuxSignals "SIGFART").2 = false ∧
    LookupSignal .basic linuxSignals " \u017figint" = (2, true) ∧
    LookupSignal .basic linuxSignals " \u017figint" = LookupSignal .basic linuxSignals "SIGINT" := by
  refine ⟨?_, ?_, ?_, ?_, ?_, ?_, ?_, ?_, ?_, by decide, by decide⟩
  · simp only [LookupSignal]
    rw [TrimSpace_ToUpper, TrimSpace_TrimSpace, ToUpper_ToUpper]
  · simp only [LookupSignal]
    rw [TrimSpace_ToUpper, ToUpper_ToUpper]
  · simp only [LookupSignal]
    rw [TrimSpace_TrimSpace]
  · exact registryLookup_found_iff registry _
  · rw [LookupSignal_of_ascii tbl _ _ (by decide)]
    decide
  · rw [LookupSignal_of_ascii tbl _ _ (by decide)]
    decide
  · rw [LookupSignal_of_ascii tbl _ _ (by decide)]
    decide
  · rw [LookupSignal_of_ascii tbl _ _ (by decide)]
    decide
  · rw [LookupSignal_of_ascii tbl _ _ (by decide)]
    decide

/-! ## Guarded conversions -/

theorem NewParseError_suffix (key : String) (value : Node) (what : String) :
    (" as ".data ++ what.data) <:+ (NewParseError key value what).Error.data := by
  unfold ParseError.Error NewParseError
  by_cases hk : key = ""
  · subst hk
    simp only [beq_self_eq_true, if_true, String.data_append]
    exact ⟨"config failed to parse ".data ++ (fmtV value).data, by simp [List.append_assoc]⟩
  · have hb : (key == "") = false := by simpa using hk
    simp only [hb, String.data_append]
    exact ⟨"config failed to parse \x7b".data ++ key.data ++ ": ".data ++ (fmtV value).data ++
      "\x7d".data, by simp [List.append_assoc]⟩

/-- C17: the conversions inside AssertIsStringArray and AssertIsStringMap never
fail. The guard returns only on a value of the shape converted to, so neither
function ever raises the runtime's type-assertion error, on any value and in
any order of visit: their only failure is a ParseError. Whenever
AssertIsStringArray returns silently so does AssertIsArray, and whenever
AssertIsStringMap returns silently so does AssertIsMap. -/
theorem guarded_conversions_are_safe (ord : RangeOrder) (key : String) (v : Node) :
    (AssertIsArray key v = .ok () → ∃ items, v = .seq items) ∧
    (AssertIsMap key v = .ok () → ∃ entries, v = .map entries) ∧
    (∀ want, AssertIsStringArray key v ≠ .error (.typeAssertion want)) ∧
    (∀ want, AssertIsStringMap ord key v ≠ .error (.typeAssertion want)) ∧
    (AssertIsStringArray key v = .ok () → AssertIsArray key v = .ok ()) ∧
    (AssertIsStringMap ord key v = .ok () → AssertIsMap key v = .ok ()) := by
  refine ⟨?_, ?_, ?_, ?_, ?_, ?_⟩
  · intro h
    cases v <;> first | exact ⟨_, rfl⟩ | cases h
  · intro h
    cases v <;> first | exact ⟨_, rfl⟩ | cases h
  · intro want h
    cases hv : v.isArray
    · rw [AssertIsStringArray_not_seq key v hv] at h
      cases h
    · obtain ⟨items, rfl⟩ := (Node.isArray_iff v).mp hv
      rw [AssertIsStringArray_seq] at h
      rcases rangeItems_cases key (.seq items) items with h1 | h1 <;> rw [h1] at h <;> cases h
  · intro want h
    cases hv : v.isMap
    · rw [AssertIsStringMap_not_map ord key v hv] at h
      cases h
    · obtain ⟨entries, rfl⟩ := (Node.isMap_iff v).mp hv
      rw [AssertIsStringMap_map] at h
      rcases rangeEntries_cases key (.map entries) (ord.visit entries) with h1 | h1 | h1 <;>
        rw [h1] at h <;> cases h
  · intro h
    cases hv : v.isArray
    · rw [AssertIsStringArray_not_seq key v hv] at h
      cases h
    · obtain ⟨items, rfl⟩ := (Node.isArray_iff v).mp hv
      rfl
  · intro h
    cases hv : v.isMap
    · rw [AssertIsStringMap_not_map ord key v hv] at h
      cases h
    · obtain ⟨entries, rfl⟩ := (Node.isMap_iff v).mp hv
      rfl

/-- C17, on the sequence `[a, b]` and on the mapping `{a: b}`: both string
assertions return, and so do the guards under them. -/
theorem guarded_conversions_are_safe_witness :
    (∃ items, Node.seq [.str "a", .str "b"] = .seq items) ∧
    AssertIsArray "stuff" (.seq [.str "a", .str "b"]) = .ok () ∧
    (∃ entries, Node.map [(.str "a", .str "b")] = .map entries) ∧
    AssertIsMap "stuff" (.map [(.str "a", .str "b")]) = .ok () :=
  have h1 := guarded_conversions_are_safe .listed "stuff" (.seq [.str "a", .str "b"])
  have h2 := guarded_conversions_are_safe .listed "stuff" (.map [(.str "a", .str "b")])
  ⟨h1.1 (by decide), h1.2.2.2.2.1 (by decide), h2.2.1 (by decide), h2.2.2.2.2.2 (by decide)⟩

/-- C18: on a value that is not a sequence node AssertIsStringArray raises the
very error AssertIsArray raises, NewParseError(key, v, "array"), whose message
ends in `as array` and does not end in `as string array`; on a value that is
not a mapping node AssertIsStringMap raises the very error AssertIsMap raises,
NewParseError(key, v, "map"). -/
theorem unguarded_shape_reports_base_label (ord : RangeOrder) (key : String) (v : Node) :
    ((∀ items, v ≠ .seq items) →
      AssertIsStringArray key v = AssertIsArray key v ∧
      AssertIsStringArray key v = .error (.parseError (NewParseError key v "array")) ∧
      "as array".data <:+ (NewParseError key v "array").Error.data ∧
      ¬ ("as string array".data <:+ (NewParseError key v "array").Error.data)) ∧
    ((∀ entries, v ≠ .map entries) →
      AssertIsStringMap ord key v = AssertIsMap key v ∧
      AssertIsStringMap ord key v = .error (.parseError (NewParseError key v "map"))) := by
  refine ⟨?_, ?_⟩
  · intro hv
    have hna : v.isArray = false := by
      rw [← Bool.not_eq_true, Node.isArray_iff]
      rintro ⟨items, hi⟩
      exact hv items hi
    have hbase : AssertIsArray key v = .error (.parseError (NewParseError key v "array")) := by
      simp [AssertIsArray, hna]
    have hsuf := NewParseError_suffix key v "array"
    refine ⟨?_, AssertIsStringArray_not_seq key v hna, ?_, ?_⟩
    · rw [hbase, AssertIsStringArray_not_seq key v hna]
    · exact List.IsSuffix.trans (by decide) hsuf
    · intro hbad
      have hcmp : (" as ".data ++ "array".data) <:+ "as string array".data :=
        List.suffix_of_suffix_length_le hsuf hbad (by decide)
      exact absurd hcmp (by decide)
  · intro hv
    have hnm : v.isMap = false := by
      rw [← Bool.not_eq_true, Node.isMap_iff]
      rintro ⟨entries, hi⟩
      exact hv entries hi
    have hbase : AssertIsMap key v = .error (.parseError (NewParseError key v "map")) := by
      simp [AssertIsMap, hnm]
    exact ⟨by rw [hbase, AssertIsStringMap_not_map ord key v hnm],
      AssertIsStringMap_not_map ord key v hnm⟩

/-- C18, on the string "invalid" under the key "stuff": the message of both
string assertions is the one of the base check. -/
theorem unguarded_shape_reports_base_label_witness :
    AssertIsStringArray "stuff" (.str "invalid") =
      .error (.parseError ⟨"config failed to parse \x7bstuff: invalid\x7d as array"⟩) ∧
    AssertIsStringMap .listed "stuff" (.str "invalid") =
      .error (.parseError ⟨"config failed to parse \x7bstuff: invalid\x7d as map"⟩) :=
  have h := unguarded_shape_reports_base_label .listed "stuff" (.str "invalid")
  ⟨(h.1 (fun _ e => by cases e)).2.1, (h.2 (fun _ e => by cases e)).2⟩

end Yamlcfg
